import Mathlib

/-!
# Verification of the NSGA-II sampler (`optuna/samplers/nsgaii/_sampler.py`)

Shallow embedding of the NSGA-II genetic-algorithm sampler: the sampler
orchestrator from `_sampler.py`, together with the collaborating strategy
components it wires up (domination comparator, elite population selection,
child-generation mutation pass, after-trial constraint recording).  The
orchestrator's own methods are translated directly from the source file;
the strategy modules, which live outside the embedded source tree, are
modelled from the specification's contracts, as marked in their doc
comments.  Python floats are modelled as rationals, Python lists and dicts
as Lean lists (dicts keep insertion order), and raising `ValueError` /
failing an `assert` as `Except.error`.
-/

namespace NSGAII

/-- States a finished or in-flight trial can be in (`optuna.trial.TrialState`). -/
inductive TrialState where
  | running
  | waiting
  | complete
  | fail
  | pruned
deriving DecidableEq, Repr

/-- Optimization direction of one objective (`optuna.study.StudyDirection`). -/
inductive Direction where
  | minimize
  | maximize
deriving DecidableEq, Repr

/-- A candidate solution: the slice of `optuna.trial.FrozenTrial` the sampler
reads — sequential number, parameter assignment, objective values, the
recorded constraint-violation vector (absent unless constraints are used),
and the final state. -/
structure Candidate where
  number : Nat
  params : List (String × ℚ)
  values : List ℚ
  constraints : Option (List ℚ)
  state : TrialState
deriving DecidableEq, Repr

instance : Inhabited Candidate := ⟨⟨0, [], [], none, .complete⟩⟩

/-- Interface of a distribution as the sampler sees it: the only query the
orchestrator makes is `single()` — whether the distribution admits exactly
one value (`optuna.distributions.BaseDistribution.single`). -/
structure BaseDistribution where
  single : Bool
deriving DecidableEq, Repr

/-- A search space: parameter names mapped to distributions, in insertion
order (a Python `dict[str, BaseDistribution]`). -/
abbrev SearchSpace := List (String × BaseDistribution)

/-- A relative-sampling result: parameter names mapped to suggested values
(a Python `dict[str, Any]`, values modelled as rationals). -/
abbrev ParamMap := List (String × ℚ)

/-- The `infer_relative_search_space` loop body: iterate over the study's
intersection search space (computed externally, passed in as `iss`) and
skip every distribution for which `single()` holds — single-valued
parameters are left to independent sampling. -/
def inferRelativeSearchSpace : SearchSpace → SearchSpace
  | [] => []
  | nd :: rest =>
    if nd.2.single then inferRelativeSearchSpace rest
    else nd :: inferRelativeSearchSpace rest

/-- Modelled from the spec: `NSGAIIAfterTrialStrategy` (its module is
outside the embedded source).  "Invoked only when `state` is complete
(evaluated normally); for failed/pruned trials, no constraint recording
occurs.  If constraints are configured, evaluates the constraint function
against the finished trial and persists the resulting constraint-violation
vector onto the trial's record."  The returned flag records whether the
constraint function was called. -/
def nsgaiiAfterTrialStrategy (constraints_func : Option (Candidate → List ℚ))
    (trial : Candidate) (state : TrialState) : Candidate × Bool :=
  match constraints_func, state with
  | some f, .complete => ({ trial with constraints := some (f trial) }, true)
  | _, _ => (trial, false)

/-- `NSGAIISampler.after_trial`: asserts the final state is complete, failed
or pruned, then hands the trial to the after-trial strategy.  (The final
forwarding to the fallback random sampler's `after_trial` records nothing
on the trial and is omitted.)  A failed assertion is an `Except.error`. -/
def afterTrial (constraints_func : Option (Candidate → List ℚ))
    (trial : Candidate) (state : TrialState) : Except String (Candidate × Bool) :=
  if state ∈ [TrialState.complete, TrialState.fail, TrialState.pruned] then
    .ok (nsgaiiAfterTrialStrategy constraints_func trial state)
  else
    .error "assert state in [TrialState.COMPLETE, TrialState.FAIL, TrialState.PRUNED]"

/-- Modelled from the spec: the per-parameter mutation probability used by
the child generation strategy's mutation pass (its module is outside the
embedded source): "independently with probability `mutation_prob` (default
`1/len(search_space)` when unset)". -/
def effectiveMutationProb (mutation_prob : Option ℚ) (search_space : SearchSpace) : ℚ :=
  match mutation_prob with
  | some p => p
  | none => 1 / (search_space.length : ℚ)

/-- Modelled from the spec: the child generation strategy's mutation pass
(its module is outside the embedded source): "for every parameter name in
`search_space`, independently with probability `mutation_prob` ... discard
the crossover/copy result for that name and draw a fresh value by
independent sampling from its distribution (delegated externally)".  The
independent per-parameter random decisions are passed in as
`mutateDecision`; `freshSample` is the delegated independent sampler. -/
def mutationPass (mutateDecision : String → Bool)
    (freshSample : String → BaseDistribution → ℚ)
    (child_params : ParamMap) (search_space : SearchSpace) : ParamMap :=
  search_space.map (fun nd =>
    if mutateDecision nd.1 then (nd.1, freshSample nd.1 nd.2)
    else (nd.1, (child_params.lookup nd.1).getD 0))

/-- Normalize one objective value so that smaller is better, honoring the
objective's direction. -/
def normalizeValue (d : Direction) (v : ℚ) : ℚ :=
  match d with
  | .minimize => v
  | .maximize => -v

/-- A candidate's objective vector, direction-normalized (paired with the
study's directions positionally). -/
def normalizedValues (dirs : List Direction) (c : Candidate) : List ℚ :=
  (c.values.zip dirs).map (fun p => normalizeValue p.2 p.1)

/-- Modelled from the spec: standard Pareto dominance over already
direction-normalized objective vectors — "a dominates b iff a is no worse
than b on every objective ... and strictly better on at least one" (the
comparator module is outside the embedded source). -/
def paretoDominates (xs ys : List ℚ) : Bool :=
  (xs.zip ys).all (fun p => decide (p.1 ≤ p.2)) &&
    (xs.zip ys).any (fun p => decide (p.1 < p.2))

/-- Modelled from the spec: "feasibility(c) = true iff all constraint values
of c are ≤ 0 (or no constraints supplied)". -/
def isFeasible (c : Candidate) : Bool :=
  match c.constraints with
  | none => true
  | some cs => cs.all (fun v => decide (v ≤ 0))

/-- Modelled from the spec: "total violation(c) = sum over constraint values
> 0 of their magnitude (0 if feasible)". -/
def totalViolation (c : Candidate) : ℚ :=
  match c.constraints with
  | none => 0
  | some cs => (cs.map (fun v => max v 0)).sum

/-- Modelled from the spec: the constrained-domination comparator (its
module is outside the embedded source; the rules also appear in the
`constraints_func` docstring of `_sampler.py`).  If feasibility differs the
feasible candidate dominates; if both are infeasible the smaller total
violation dominates; if both are feasible, standard Pareto dominance on the
direction-normalized objective vectors decides. -/
def constrainedDominates (dirs : List Direction) (a b : Candidate) : Bool :=
  match isFeasible a, isFeasible b with
  | true, false => true
  | false, true => false
  | false, false => decide (totalViolation a < totalViolation b)
  | true, true => paretoDominates (normalizedValues dirs a) (normalizedValues dirs b)

/-- One step of insertion sort by a boolean comparison. -/
def insertBy {α : Type} (le : α → α → Bool) (x : α) : List α → List α
  | [] => [x]
  | y :: ys => if le x y then x :: y :: ys else y :: insertBy le x ys

/-- Insertion sort by a boolean comparison. -/
def sortBy {α : Type} (le : α → α → Bool) : List α → List α
  | [] => []
  | x :: xs => insertBy le x (sortBy le xs)

/-- Crowding distance values: non-negative rationals extended with an
unbounded value for boundary candidates. -/
abbrev Crowding := WithTop ℚ

/-- The direction-normalized value of objective `d` of the `i`-th member of
a front. -/
def objValAt (dirs : List Direction) (front : List Candidate) (d i : Nat) : ℚ :=
  normalizeValue (dirs.getD d Direction.minimize)
    ((front.getD i default).values.getD d 0)

/-- The positions of a front's members, sorted by objective `d`. -/
def sortedIdx (dirs : List Direction) (front : List Candidate) (d : Nat) : List Nat :=
  sortBy (fun i j => decide (objValAt dirs front d i ≤ objValAt dirs front d j))
    (List.range front.length)

/-- Modelled from the spec: the contribution of objective dimension `d` to
the crowding distance of the front member at position `i` — "sort front
members by that objective, assign distance 0 to interior points plus the
normalized gap between immediate neighbors (boundary points get unbounded
distance)". -/
def crowdingContrib (dirs : List Direction) (front : List Candidate) (d i : Nat) :
    Crowding :=
  let s := sortedIdx dirs front d
  let p := s.indexOf i
  if p = 0 ∨ p + 1 = s.length then ⊤
  else
    let lo := objValAt dirs front d (s.getD 0 0)
    let hi := objValAt dirs front d (s.getD (s.length - 1) 0)
    let prev := objValAt dirs front d (s.getD (p - 1) 0)
    let nxt := objValAt dirs front d (s.getD (p + 1) 0)
    (((nxt - prev) / (hi - lo) : ℚ) : Crowding)

/-- Modelled from the spec: crowding distance of the front member at
position `i` — "sum contributions across dimensions". -/
def crowdingDistance (dirs : List Direction) (front : List Candidate) (i : Nat) :
    Crowding :=
  (List.range dirs.length).foldl (fun acc d => acc + crowdingContrib dirs front d i) 0

/-- Modelled from the spec: order an overflowing front "by descending
crowding distance; ties broken by Candidate identifier (stable,
deterministic)". -/
def crowdingSort (dirs : List Direction) (front : List Candidate) : List Candidate :=
  let indexed := (List.range front.length).map
    (fun i => (i, crowdingDistance dirs front i))
  let sorted := sortBy
    (fun a b =>
      decide (b.2 < a.2) ||
        (decide (a.2 = b.2) &&
          decide ((front.getD a.1 default).number ≤ (front.getD b.1 default).number)))
    indexed
  sorted.map (fun a => front.getD a.1 default)

/-- Whether some member of the pool constrained-dominates `c`. -/
def dominatedWithin (dirs : List Direction) (pool : List Candidate) (c : Candidate) :
    Bool :=
  pool.any (fun other => constrainedDominates dirs other c)

/-- Modelled from the spec: iterative non-dominated sorting — "front 0 =
Candidates not constrained-dominated by any other member of `pool`; front
k+1 = candidates dominated only by members already assigned to fronts ≤ k,
computed by repeatedly removing settled fronts".  The fuel argument (the
pool's size at the top-level call) bounds the iteration; the `isEmpty`
branch can only be reached if domination cycled, and then the remaining
pool is returned as a single final front. -/
def nondominatedFronts (dirs : List Direction) :
    Nat → List Candidate → List (List Candidate)
  | _, [] => []
  | 0, pool => [pool]
  | fuel + 1, pool =>
    if (pool.filter (fun c => !dominatedWithin dirs pool c)).isEmpty then [pool]
    else
      pool.filter (fun c => !dominatedWithin dirs pool c) ::
        nondominatedFronts dirs fuel
          (pool.filter (fun c => dominatedWithin dirs pool c))

/-- Modelled from the spec: front consumption — "consume fronts in
increasing rank order, adding an entire front to the result if doing so
keeps the result at or under `target_size`"; the first overflowing front is
cut down by descending crowding distance to fill the remaining slots. -/
def eliteGo (dirs : List Direction) (target : Nat) :
    List (List Candidate) → List Candidate → List Candidate
  | [], acc => acc
  | f :: fs, acc =>
    if acc.length + f.length ≤ target then eliteGo dirs target fs (acc ++ f)
    else acc ++ (crowdingSort dirs f).take (target - acc.length)

/-- Modelled from the spec: the elite population selector
(`NSGAIIElitePopulationSelectionStrategy`, outside the embedded source):
non-dominated sorting of the pool, then front consumption with
crowding-distance truncation of the first overflowing front. -/
def selectElite (dirs : List Direction) (target : Nat) (pool : List Candidate) :
    List Candidate :=
  eliteGo dirs target (nondominatedFronts dirs pool.length pool) []

/-- A study, as the sampler's strategies see it: its objective directions
(trial history is reached through the generation-tracker fields of the
sampler state below). -/
structure Study where
  directions : List Direction

/-- The orchestrator state `select_parent` and `sample_relative` work over:
the injected (or default) strategy callables, together with the
generation-tracker interface inherited from `BaseGASampler` (whose module
is outside the embedded source, so its operations stay abstract). -/
structure SamplerState where
  elite_population_selection_strategy : Study → List Candidate → List Candidate
  child_generation_strategy : Study → SearchSpace → List Candidate → ParamMap
  get_population : Study → Int → List Candidate
  get_parent_population : Study → Int → List Candidate
  get_trial_generation : Study → Candidate → Int

/-- `NSGAIISampler.select_parent`: apply the elite population selection
strategy to the concatenation of generation `generation - 1`'s population
and that same generation's own parent population. -/
def selectParent (s : SamplerState) (study : Study) (generation : Int) :
    List Candidate :=
  s.elite_population_selection_strategy study
    (s.get_population study (generation - 1) ++
      s.get_parent_population study (generation - 1))

/-- `NSGAIISampler.sample_relative`, instrumented with a flag recording
whether the child generation strategy was invoked: fetch the trial's
generation and that generation's parent population; an empty parent
population yields the empty mapping, otherwise the child generation
strategy's result is returned as is. -/
def sampleRelativeTraced (s : SamplerState) (study : Study) (trial : Candidate)
    (search_space : SearchSpace) : ParamMap × Bool :=
  if (s.get_parent_population study (s.get_trial_generation study trial)).length = 0
  then ([], false)
  else
    (s.child_generation_strategy study search_space
        (s.get_parent_population study (s.get_trial_generation study trial)),
      true)

/-- `NSGAIISampler.sample_relative`: the mapping it returns. -/
def sampleRelative (s : SamplerState) (study : Study) (trial : Candidate)
    (search_space : SearchSpace) : ParamMap :=
  (sampleRelativeTraced s study trial search_space).1

/-- Crossover operator interface (`BaseCrossover`): the only attribute the
orchestrator reads is `n_parents`. -/
structure BaseCrossover where
  n_parents : Int
deriving DecidableEq, Repr

/-- `UniformCrossover(swapping_prob)`, the default crossover: two parents. -/
def UniformCrossover (_swapping_prob : ℚ) : BaseCrossover :=
  { n_parents := 2 }

/-- The keyword arguments of `NSGAIISampler.__init__` that make up the
validated configuration surface (custom strategy injections replace the
defaults wholesale and are orthogonal to validation). -/
structure SamplerConfig where
  population_size : Int := 50
  mutation_prob : Option ℚ := none
  crossover : Option BaseCrossover := none
  crossover_prob : ℚ := 9 / 10
  swapping_prob : ℚ := 1 / 2
  seed : Option Nat := none

/-- The configuration a successfully constructed sampler holds. -/
structure ValidatedSampler where
  population_size : Int
  mutation_prob : Option ℚ
  crossover : BaseCrossover
  crossover_prob : ℚ
  swapping_prob : ℚ

/-- Modelled from the spec: the construction-time validation done by the
default child generation strategy (`NSGAIIChildGenerationStrategy`, outside
the embedded source), which `__init__` instantiates — the configuration
surface requires "`mutation_prob` ∈ (0,1] or unset, `crossover_prob` ∈
[0,1], `swapping_prob` ∈ [0,1]". -/
def childGenerationStrategyValidate (mutation_prob : Option ℚ)
    (crossover_prob swapping_prob : ℚ) : Except String Unit :=
  if !(match mutation_prob with
        | none => true
        | some p => decide (0 < p) && decide (p ≤ 1)) then
    .error "`mutation_prob` must be None or a float value in (0.0, 1.0]."
  else if !(decide (0 ≤ crossover_prob) && decide (crossover_prob ≤ 1)) then
    .error "`crossover_prob` must be a float value within the range [0.0, 1.0]."
  else if !(decide (0 ≤ swapping_prob) && decide (swapping_prob ≤ 1)) then
    .error "`swapping_prob` must be a float value within the range [0.0, 1.0]."
  else .ok ()

/-- `NSGAIISampler.__init__`: reject `population_size < 2`; default the
crossover to `UniformCrossover(swapping_prob)`; reject a population smaller
than the crossover's `n_parents`; then build the default strategies — the
default child generation strategy validates the probability arguments.  A
raised `ValueError` is an `Except.error`; a sampler is returned only when
every check passes. -/
def samplerInit (cfg : SamplerConfig) : Except String ValidatedSampler :=
  if cfg.population_size < 2 then
    .error "`population_size` must be greater than or equal to 2."
  else if cfg.population_size <
      (cfg.crossover.getD (UniformCrossover cfg.swapping_prob)).n_parents then
    .error "the population size should be greater than or equal to n_parents."
  else
    match childGenerationStrategyValidate cfg.mutation_prob cfg.crossover_prob
        cfg.swapping_prob with
    | .error e => .error e
    | .ok _ =>
      .ok
        { population_size := cfg.population_size
          mutation_prob := cfg.mutation_prob
          crossover := cfg.crossover.getD (UniformCrossover cfg.swapping_prob)
          crossover_prob := cfg.crossover_prob
          swapping_prob := cfg.swapping_prob }

/-- State of one pseudo-random generator (`numpy.random.RandomState`),
modelled by the word it was last seeded with. -/
structure RandomState where
  seed : Nat
deriving DecidableEq, Repr

/-- One draw from the generator, modelled as a 64-bit linear-congruential
step: the drawn word together with the successor state. -/
def RandomState.next (s : RandomState) : Nat × RandomState :=
  let x := (6364136223846793005 * s.seed + 1442695040888963407) % (2 ^ 64)
  (x, ⟨x⟩)

/-- The two generators the sampler owns: `self._rng` (crossover/mutation)
and the fallback `self._random_sampler`'s own generator. -/
structure SamplerRngState where
  rng : RandomState
  random_sampler_rng : RandomState
deriving DecidableEq, Repr

/-- `NSGAIISampler.reseed_rng`: `self._random_sampler.reseed_rng()` followed
by `self._rng.rng.seed()`.  A no-argument `seed()` reinitializes the
generator from fresh OS entropy, so each call consumes an entropy word the
caller does not control; the words drawn by the two calls are made explicit
here (`bootstrap_entropy` for the fallback sampler's reseed,
`sampler_entropy` for the sampler-owned generator). -/
def reseedRng (_s : SamplerRngState) (bootstrap_entropy sampler_entropy : Nat) :
    SamplerRngState :=
  { rng := ⟨sampler_entropy⟩, random_sampler_rng := ⟨bootstrap_entropy⟩ }

end NSGAII

namespace NSGAII

/-- **C10.** `infer_relative_search_space` returns exactly the intersection
search space with every single-valued distribution removed: the result is
the order-preserving filter keeping non-single distributions, and a
parameter belongs to the result iff it belongs to the intersection search
space with a non-single distribution. -/
theorem inferRelativeSearchSpace_eq_filter (iss : SearchSpace) :
    inferRelativeSearchSpace iss = iss.filter (fun nd => !nd.2.single) ∧
    ∀ nd : String × BaseDistribution,
      nd ∈ inferRelativeSearchSpace iss ↔ nd ∈ iss ∧ nd.2.single = false := by
  constructor
  · induction iss with
    | nil => rfl
    | cons hd tl ih =>
      by_cases h : hd.2.single
      · simp [inferRelativeSearchSpace, h, ih]
      · simp [inferRelativeSearchSpace, h, ih]
  · intro nd
    induction iss with
    | nil => simp [inferRelativeSearchSpace]
    | cons hd tl ih =>
      by_cases h : hd.2.single
      · simp only [inferRelativeSearchSpace, if_pos h]
        rw [ih]
        constructor
        · intro ⟨h1, h2⟩
          exact ⟨List.mem_cons_of_mem _ h1, h2⟩
        · rintro ⟨h1, h2⟩
          rcases List.mem_cons.mp h1 with rfl | h1
          · exact absurd h (by simp [h2])
          · exact ⟨h1, h2⟩
      · simp only [inferRelativeSearchSpace, if_neg h, List.mem_cons]
        rw [ih]
        constructor
        · rintro (rfl | ⟨h1, h2⟩)
          · exact ⟨Or.inl rfl, by simpa using h⟩
          · exact ⟨Or.inr h1, h2⟩
        · rintro ⟨rfl | h1, h2⟩
          · exact Or.inl rfl
          · exact Or.inr ⟨h1, h2⟩

/-- **C6.** Constraint recording runs only for complete trials: when
`after_trial` is invoked with a failed or pruned state, the configured
constraints function is never called (the call flag is `false`) and the
trial record is returned unchanged. -/
theorem afterTrial_skips_constraints_on_fail_pruned
    (constraints_func : Option (Candidate → List ℚ))
    (trial : Candidate) (state : TrialState)
    (h : state = TrialState.fail ∨ state = TrialState.pruned) :
    afterTrial constraints_func trial state = .ok (trial, false) := by
  rcases h with rfl | rfl <;>
    cases constraints_func <;> rfl

theorem afterTrial_skips_constraints_on_fail_pruned_witness :
    afterTrial (some (fun _ => [1])) default TrialState.fail =
      .ok (default, false) :=
  afterTrial_skips_constraints_on_fail_pruned (some (fun _ => [1])) default
    TrialState.fail (Or.inl rfl)

/-- **C9.** `after_trial` asserts that the state is complete, failed or
pruned: with any other state (running or waiting) it fails the assertion
before any strategy runs, and under the precondition that the state is one
of the three the assertion branch is unreachable (the call succeeds). -/
theorem afterTrial_assertion (constraints_func : Option (Candidate → List ℚ))
    (trial : Candidate) (state : TrialState) :
    (state = TrialState.running ∨ state = TrialState.waiting →
      afterTrial constraints_func trial state =
        .error
          "assert state in [TrialState.COMPLETE, TrialState.FAIL, TrialState.PRUNED]") ∧
    (state ∈ [TrialState.complete, TrialState.fail, TrialState.pruned] →
      (afterTrial constraints_func trial state).isOk = true) := by
  constructor
  · rintro (rfl | rfl) <;> rfl
  · intro h
    simp only [afterTrial, if_pos h, Except.isOk, Except.toBool]

theorem afterTrial_assertion_witness :
    afterTrial (none : Option (Candidate → List ℚ)) default TrialState.running =
      .error
        "assert state in [TrialState.COMPLETE, TrialState.FAIL, TrialState.PRUNED]" :=
  (afterTrial_assertion none default TrialState.running).1 (Or.inl rfl)

/-- **C8.** When `mutation_prob` is unset the per-parameter mutation
probability defaults to `1 / len(search_space)`, and the mutation pass makes
one decision per parameter name of the search space: the offspring has
exactly the search space's parameter names, in order. -/
theorem effectiveMutationProb_default (search_space : SearchSpace) :
    effectiveMutationProb none search_space = 1 / (search_space.length : ℚ) ∧
    ∀ (mutateDecision : String → Bool)
      (freshSample : String → BaseDistribution → ℚ) (child_params : ParamMap),
      (mutationPass mutateDecision freshSample child_params search_space).map
          Prod.fst =
        search_space.map Prod.fst := by
  refine ⟨rfl, ?_⟩
  intro mutateDecision freshSample child_params
  induction search_space with
  | nil => rfl
  | cons hd tl ih =>
    simp only [mutationPass, List.map_cons] at ih ⊢
    by_cases h : mutateDecision hd.1 <;> simp [h, ih]

/-- Pareto dominance is asymmetric: two vectors can never dominate each
other. -/
theorem paretoDominates_asymm (xs ys : List ℚ) :
    paretoDominates xs ys = true → paretoDominates ys xs = true → False := by
  intro h1 h2
  simp only [paretoDominates, Bool.and_eq_true, List.all_eq_true, List.any_eq_true,
    decide_eq_true_eq] at h1 h2
  obtain ⟨-, p, hp, hlt⟩ := h1
  obtain ⟨hall2, -⟩ := h2
  have hswap : (p.2, p.1) ∈ ys.zip xs := by
    rw [← List.zip_swap]
    exact List.mem_map_of_mem Prod.swap hp
  exact absurd hlt (not_lt.mpr (hall2 _ hswap))

/-- Constrained domination is asymmetric on every pair of candidates. -/
theorem constrainedDominates_asymm (dirs : List Direction) (a b : Candidate) :
    ¬ (constrainedDominates dirs a b = true ∧ constrainedDominates dirs b a = true) := by
  rintro ⟨h1, h2⟩
  unfold constrainedDominates at h1 h2
  cases hfa : isFeasible a <;> cases hfb : isFeasible b <;>
    rw [hfa, hfb] at h1 h2
  · rw [decide_eq_true_eq] at h1 h2
    exact absurd h1 (not_lt.mpr (le_of_lt h2))
  · exact Bool.false_ne_true h1
  · exact Bool.false_ne_true h2
  · exact paretoDominates_asymm _ _ h1 h2

/-- **C4.** The constrained-domination comparator is a strict partial
order: `dominates(a,b)` and `dominates(b,a)` never both hold, and for
feasible candidates with distinct objective vectors exactly one of
`dominates(a,b)`, `dominates(b,a)`, or neither holds. -/
theorem constrainedDominates_never_mutual (dirs : List Direction)
    (a b : Candidate) :
    (¬ (constrainedDominates dirs a b = true ∧
        constrainedDominates dirs b a = true)) ∧
    (isFeasible a = true → isFeasible b = true → a.values ≠ b.values →
      (constrainedDominates dirs a b = true ∧
          constrainedDominates dirs b a = false) ∨
      (constrainedDominates dirs a b = false ∧
          constrainedDominates dirs b a = true) ∨
      (constrainedDominates dirs a b = false ∧
          constrainedDominates dirs b a = false)) := by
  refine ⟨constrainedDominates_asymm dirs a b, ?_⟩
  intro _ _ _
  cases h1 : constrainedDominates dirs a b <;> cases h2 : constrainedDominates dirs b a
  · exact Or.inr (Or.inr ⟨rfl, rfl⟩)
  · exact Or.inr (Or.inl ⟨rfl, rfl⟩)
  · exact Or.inl ⟨rfl, rfl⟩
  · exact absurd ⟨h1, h2⟩ (constrainedDominates_asymm dirs a b)

theorem constrainedDominates_never_mutual_witness :
    (constrainedDominates [Direction.minimize, Direction.minimize]
          ⟨0, [], [1, 2], none, TrialState.complete⟩
          ⟨1, [], [2, 1], none, TrialState.complete⟩ = true ∧
        constrainedDominates [Direction.minimize, Direction.minimize]
          ⟨1, [], [2, 1], none, TrialState.complete⟩
          ⟨0, [], [1, 2], none, TrialState.complete⟩ = false) ∨
    (constrainedDominates [Direction.minimize, Direction.minimize]
          ⟨0, [], [1, 2], none, TrialState.complete⟩
          ⟨1, [], [2, 1], none, TrialState.complete⟩ = false ∧
        constrainedDominates [Direction.minimize, Direction.minimize]
          ⟨1, [], [2, 1], none, TrialState.complete⟩
          ⟨0, [], [1, 2], none, TrialState.complete⟩ = true) ∨
    (constrainedDominates [Direction.minimize, Direction.minimize]
          ⟨0, [], [1, 2], none, TrialState.complete⟩
          ⟨1, [], [2, 1], none, TrialState.complete⟩ = false ∧
        constrainedDominates [Direction.minimize, Direction.minimize]
          ⟨1, [], [2, 1], none, TrialState.complete⟩
          ⟨0, [], [1, 2], none, TrialState.complete⟩ = false) :=
  (constrainedDominates_never_mutual
      [Direction.minimize, Direction.minimize]
      ⟨0, [], [1, 2], none, TrialState.complete⟩
      ⟨1, [], [2, 1], none, TrialState.complete⟩).2 rfl rfl (by decide)

/-- **C1.** For every study and generation, `select_parent` hands the elite
population selection strategy the concatenation of generation `g-1`'s
population and generation `g-1`'s own parent population — in particular the
previous parent population is a suffix of the selection pool, so selection
is never over the raw offspring population alone. -/
theorem selectParent_selects_over_union (s : SamplerState) (study : Study)
    (generation : Int) :
    selectParent s study generation =
      s.elite_population_selection_strategy study
        (s.get_population study (generation - 1) ++
          s.get_parent_population study (generation - 1)) ∧
    List.IsSuffix (s.get_parent_population study (generation - 1))
      (s.get_population study (generation - 1) ++
        s.get_parent_population study (generation - 1)) :=
  ⟨rfl, ⟨s.get_population study (generation - 1), rfl⟩⟩

/-- **C2.** If the parent population fetched for the trial's generation is
empty, `sample_relative` returns the empty mapping and the child generation
strategy is not invoked; otherwise it returns exactly the strategy's result
on that parent population.  Both branches return normally — an empty parent
population is never an error. -/
theorem sampleRelative_parent_population_cases (s : SamplerState) (study : Study)
    (trial : Candidate) (search_space : SearchSpace) :
    (s.get_parent_population study (s.get_trial_generation study trial) = [] →
      sampleRelativeTraced s study trial search_space = ([], false)) ∧
    (s.get_parent_population study (s.get_trial_generation study trial) ≠ [] →
      sampleRelativeTraced s study trial search_space =
        (s.child_generation_strategy study search_space
            (s.get_parent_population study (s.get_trial_generation study trial)),
          true)) := by
  constructor
  · intro h
    simp [sampleRelativeTraced, h]
  · intro h
    rw [sampleRelativeTraced, if_neg]
    simpa [List.length_eq_zero] using h

theorem sampleRelative_parent_population_cases_witness :
    sampleRelativeTraced
      ⟨fun _ pool => pool, fun _ _ _ => [], fun _ _ => [], fun _ _ => [],
        fun _ _ => 0⟩
      ⟨[Direction.minimize]⟩ default [] = ([], false) :=
  (sampleRelative_parent_population_cases
    ⟨fun _ pool => pool, fun _ _ _ => [], fun _ _ => [], fun _ _ => [],
      fun _ _ => 0⟩
    ⟨[Direction.minimize]⟩ default []).1 rfl

/-- The default child generation strategy's constructor accepts exactly the
probability arguments of the configuration surface. -/
theorem childGenerationStrategyValidate_isOk (mp : Option ℚ) (cp sp : ℚ) :
    (childGenerationStrategyValidate mp cp sp).isOk = true ↔
      ((mp = none ∨ ∃ p, mp = some p ∧ 0 < p ∧ p ≤ 1) ∧
        (0 ≤ cp ∧ cp ≤ 1) ∧ (0 ≤ sp ∧ sp ≤ 1)) := by
  cases mp with
  | none =>
    simp only [childGenerationStrategyValidate]
    split_ifs with h1 h2 h3 <;>
      simp_all [Except.isOk, Except.toBool, decide_eq_true_eq] <;>
      intros <;>
      first
        | linarith
        | (rcases h1 with h | h <;> linarith)
        | (rcases h2 with h | h <;> linarith)
        | (rcases h3 with h | h <;> linarith)
  | some p =>
    simp only [childGenerationStrategyValidate]
    split_ifs with h1 h2 h3 <;>
      simp_all [Except.isOk, Except.toBool, decide_eq_true_eq] <;>
      intros <;>
      first
        | linarith
        | (rcases h1 with h | h <;> linarith)
        | (rcases h2 with h | h <;> linarith)
        | (rcases h3 with h | h <;> linarith)

/-- **C3.** Construction succeeds exactly on valid configurations, so a
sampler never exists in an invalid state: `__init__` raises whenever
`population_size < 2` or `population_size < crossover.n_parents`, and the
validated-at-construction surface further requires `mutation_prob` in
(0,1] or unset, `crossover_prob` in [0,1] and `swapping_prob` in [0,1]. -/
theorem samplerInit_validates (cfg : SamplerConfig) :
    (samplerInit cfg).isOk = true ↔
      (2 ≤ cfg.population_size ∧
        (cfg.crossover.getD (UniformCrossover cfg.swapping_prob)).n_parents ≤
          cfg.population_size ∧
        (cfg.mutation_prob = none ∨
          ∃ p, cfg.mutation_prob = some p ∧ 0 < p ∧ p ≤ 1) ∧
        (0 ≤ cfg.crossover_prob ∧ cfg.crossover_prob ≤ 1) ∧
        (0 ≤ cfg.swapping_prob ∧ cfg.swapping_prob ≤ 1)) := by
  rw [samplerInit]
  split_ifs with h1 h2
  · simp only [Except.isOk, Except.toBool, Bool.false_eq_true, false_iff]
    rintro ⟨hp, -⟩
    omega
  · simp only [Except.isOk, Except.toBool, Bool.false_eq_true, false_iff]
    rintro ⟨-, hp, -⟩
    omega
  · have hv := childGenerationStrategyValidate_isOk cfg.mutation_prob
      cfg.crossover_prob cfg.swapping_prob
    cases hval : childGenerationStrategyValidate cfg.mutation_prob
        cfg.crossover_prob cfg.swapping_prob with
    | error e =>
      rw [hval] at hv
      simp only [Except.isOk, Except.toBool, Bool.false_eq_true, false_iff] at hv ⊢
      rintro ⟨-, -, hprobs⟩
      exact hv hprobs
    | ok u =>
      rw [hval] at hv
      simp only [Except.isOk, Except.toBool, true_iff] at hv ⊢
      exact ⟨by omega, by omega, hv⟩

/-- The fronts produced by non-dominated sorting partition the pool: their
concatenation is a permutation of the pool. -/
theorem nondominatedFronts_flatten_perm (dirs : List Direction) :
    ∀ (fuel : Nat) (pool : List Candidate),
      List.Perm (nondominatedFronts dirs fuel pool).flatten pool := by
  intro fuel
  induction fuel with
  | zero =>
    intro pool
    cases pool with
    | nil => simp [nondominatedFronts]
    | cons x xs => simp [nondominatedFronts]
  | succ fuel ih =>
    intro pool
    cases pool with
    | nil => simp [nondominatedFronts]
    | cons x xs =>
      simp only [nondominatedFronts]
      by_cases he :
          ((x :: xs).filter (fun c => !dominatedWithin dirs (x :: xs) c)).isEmpty
      · rw [if_pos he]; simp
      · rw [if_neg he, List.flatten_cons]
        refine List.Perm.trans (List.Perm.append_left _ (ih _)) ?_
        exact List.Perm.trans List.perm_append_comm
          (List.filter_append_perm (fun c => dominatedWithin dirs (x :: xs) c) (x :: xs))

/-- Front consumption never exceeds the target size. -/
theorem eliteGo_length_le (dirs : List Direction) (target : Nat) :
    ∀ (fs : List (List Candidate)) (acc : List Candidate),
      acc.length ≤ target → (eliteGo dirs target fs acc).length ≤ target := by
  intro fs
  induction fs with
  | nil => intro acc h; simpa [eliteGo] using h
  | cons f fs ih =>
    intro acc h
    simp only [eliteGo]
    split
    · rename_i hle
      exact ih (acc ++ f) (by simpa using hle)
    · rw [List.length_append, List.length_take]
      have := Nat.min_le_left (target - acc.length) (crowdingSort dirs f).length
      omega

/-- When everything fits, front consumption keeps every front whole. -/
theorem eliteGo_of_total_le (dirs : List Direction) (target : Nat) :
    ∀ (fs : List (List Candidate)) (acc : List Candidate),
      acc.length + fs.flatten.length ≤ target →
      eliteGo dirs target fs acc = acc ++ fs.flatten := by
  intro fs
  induction fs with
  | nil => intro acc h; simp [eliteGo]
  | cons f fs ih =>
    intro acc h
    rw [List.flatten_cons, List.length_append] at h
    simp only [eliteGo]
    rw [if_pos (by omega), ih (acc ++ f) (by rw [List.length_append]; omega),
      List.flatten_cons, List.append_assoc]

/-- **C5.** The elite population selector returns at most `target_size`
candidates; a pool whose size is at most `target_size` is returned whole
(the result is a permutation of the entire pool); the empty pool yields the
empty result. -/
theorem selectElite_bounds (dirs : List Direction) (target : Nat)
    (pool : List Candidate) :
    (selectElite dirs target pool).length ≤ target ∧
    (pool.length ≤ target → List.Perm (selectElite dirs target pool) pool) ∧
    selectElite dirs target ([] : List Candidate) = [] := by
  refine ⟨eliteGo_length_le dirs target _ [] (Nat.zero_le _), ?_, rfl⟩
  intro hle
  have hperm := nondominatedFronts_flatten_perm dirs pool.length pool
  have hlen := hperm.length_eq
  rw [selectElite, eliteGo_of_total_le dirs target _ []
    (by simp only [List.length_nil, Nat.zero_add, hlen]; exact hle)]
  simpa using hperm

theorem selectElite_bounds_witness :
    List.Perm
      (selectElite [Direction.minimize] 5
        [⟨0, [], [1], none, TrialState.complete⟩,
          ⟨1, [], [2], none, TrialState.complete⟩])
      [⟨0, [], [1], none, TrialState.complete⟩,
        ⟨1, [], [2], none, TrialState.complete⟩] :=
  (selectElite_bounds [Direction.minimize] 5
      [⟨0, [], [1], none, TrialState.complete⟩,
        ⟨1, [], [2], none, TrialState.complete⟩]).2.1 (by decide)

/-- **C7 counterexample.** Reseeding is not deterministic: `reseed_rng`
reinitializes the sampler-owned generator with `self._rng.rng.seed()`, a
no-argument seed call that draws fresh OS entropy.  Two invocations on
identical sampler states (here with the OS supplying entropy words 0 and 1
for the sampler-owned generator) leave the generator in different states
with different subsequent draws, so identically reseeded samplers need not
coincide. -/
theorem reseedRng_not_deterministic :
    (reseedRng ⟨⟨0⟩, ⟨0⟩⟩ 0 0).rng ≠ (reseedRng ⟨⟨0⟩, ⟨0⟩⟩ 0 1).rng ∧
    (reseedRng ⟨⟨0⟩, ⟨0⟩⟩ 0 0).rng.next.1 ≠
      (reseedRng ⟨⟨0⟩, ⟨0⟩⟩ 0 1).rng.next.1 := by
  constructor <;> decide

/-- **C7 (amended).** `reseed_rng` reseeds the fallback bootstrap sampler's
generator and the sampler-owned crossover/mutation generator each from its
own fresh entropy word — non-deterministically, not reproducibly — and the
two generators stay independent: the sampler-owned generator's post-reseed
state is determined solely by its own entropy word, regardless of either
sampler's prior state or of the bootstrap generator's entropy. -/
theorem reseedRng_independent (s t : SamplerRngState)
    (bootstrap_entropy bootstrap_entropy' sampler_entropy : Nat) :
    (reseedRng s bootstrap_entropy sampler_entropy).rng =
      (reseedRng t bootstrap_entropy' sampler_entropy).rng ∧
    (reseedRng s bootstrap_entropy sampler_entropy).rng = ⟨sampler_entropy⟩ ∧
    (reseedRng s bootstrap_entropy sampler_entropy).random_sampler_rng =
      ⟨bootstrap_entropy⟩ :=
  ⟨rfl, rfl, rfl⟩

end NSGAII
